import Mathlib

/-!
Shallow embedding of the Meta-Agent Decision Engine of the
"AI-driven Self-Healing Cloud" repository, together with proofs that
settle the frozen claims about it.

Embedded source files:
* `src/ai-engine/llm-reasoning/safety_layer.py` (class `SafetyLayer`)
* `src/ai-engine/meta-agent/confidence_estimator.py` (class `ConfidenceEstimator`)
* `src/ai-engine/meta-agent/orchestrator.py` (class `MetaAgentOrchestrator`)
* `src/ai-engine/meta-agent/memory.py` (classes `ShortTermMemory`,
  `LongTermEmbeddings`, `DecisionArchive`, `MetaAgentMemory`)

Modelling conventions:
* Python dicts that play the role of records (decisions, action parameters,
  events, archive entries) are embedded as structures whose fields are
  `Option`-valued: `none` models an absent key, and `o.getD v` models
  `dict.get(key, v)`.  Only the keys that the embedded code reads or writes
  are represented; free-text keys (`reasoning`, `explanation`, `stored_at`,
  `confidence_details`) are carried through the Python code unchanged or are
  never read again, and are not represented.
* Python floats are embedded as exact rationals `ℚ`; machine rounding is not
  modelled (no claim is about rounding).
* `numpy.std`, which is irrational in general, is taken as an explicit
  function parameter `nstd : List ℚ → ℚ` of the confidence estimator; every
  theorem about the estimator is proved for all values of this parameter,
  hence in particular for the real standard deviation.
* The regular-expression scan `_contains_unsafe_patterns(str(action_params))`
  is taken as an explicit predicate parameter `oracle : ActionParams → Bool`;
  theorems about the safety layer hold for every such predicate, hence for
  the real regex scan.  Concrete counterexamples instantiate it with the
  value the real scan takes on the concrete parameters in question (no unsafe
  pattern occurs in their textual rendering, i.e. `false`).
* Wall-clock timestamps (`datetime.now().isoformat()`, which are strictly
  increasing ISO strings under lexicographic order) are modelled as `ℕ`
  arguments supplied by the caller.
-/

/-! ## String helpers

`strContains s sub` embeds the Python substring test `sub in s`.
-/

/-- Whether the first character list is an initial segment of the second. -/
def leadsWith : List Char → List Char → Bool
  | [], _ => true
  | _ :: _, [] => false
  | a :: as, b :: bs => a == b && leadsWith as bs

/-- Whether `pat` occurs as a contiguous segment of the character list. -/
def charsHas (pat : List Char) : List Char → Bool
  | [] => leadsWith pat []
  | c :: rest => leadsWith pat (c :: rest) || charsHas pat rest

/-- Python substring test: `sub in s`. -/
def strContains (s sub : String) : Bool :=
  charsHas sub.data s.data

/-- ASCII lower-casing of one character (the deletion keywords and protected
substrings the safety layer compares against are ASCII, so `str.lower()` and
this function agree on every occurrence that matters). -/
def lowerChar (c : Char) : Char :=
  if 'A' ≤ c ∧ c ≤ 'Z' then Char.ofNat (c.toNat + 32) else c

/-- Python `str.lower()` (ASCII fragment). -/
def strLower (s : String) : String :=
  ⟨s.data.map lowerChar⟩

/-! ## Safety layer (`src/ai-engine/llm-reasoning/safety_layer.py`)

`SafetyLayer.__init__` fixes the allow-list, the replica bounds, the
protected resource substrings and the dangerous-action list; `SafetyConfig`
holds these, and `defaultSafety` is the configuration built from the default
constructor arguments.
-/

/-- Projection of an `action_params` dict onto the keys the safety layer
reads or writes.  The `action` field models an `"action"` key inside the
parameter dict: `validate_action` builds
`corrected_action = {"action": action, **action_params}`, in which a
pre-existing `"action"` key of `action_params` overrides the first entry. -/
structure ActionParams where
  action : Option String := none
  resource_name : Option String := none
  target_replicas : Option Int := none
  replicas : Option Int := none
deriving DecidableEq

/-- Recommendation dict produced by an advisor: `{action, confidence, source}`
(the free-text `reasoning` key is never read by the embedded code). -/
structure Recommendation where
  action : Option String := none
  confidence : Option ℚ := none
  source : Option String := none
deriving DecidableEq

/-- Projection of a decision dict onto the keys read or written by the
safety layer and the orchestrator. -/
structure Decision where
  action : Option String := none
  action_params : Option ActionParams := none
  confidence : Option ℚ := none
  safety_corrected : Option Bool := none
  safety_warning : Option String := none
  safety_checked : Option Bool := none
  is_safe : Option Bool := none
  recommendations : List Recommendation := []
  risk_score : Option ℚ := none
  target_agent : Option String := none
deriving DecidableEq

/-- Projection of an event dict (also used as the safety-check context) onto
the keys read by the embedded code. -/
structure EventCtx where
  severity : Option String := none
  failure_count : Option Int := none
  current_replicas : Option Int := none
deriving DecidableEq

/-- Configuration state set up by `SafetyLayer.__init__`. -/
structure SafetyConfig where
  allowed_actions : List String
  max_replicas : Int
  min_replicas : Int
  protected_resources : List String
  dangerous_actions : List String
deriving DecidableEq

/-- The `SafetyLayer()` built from the default constructor arguments. -/
def defaultSafety : SafetyConfig where
  allowed_actions :=
    ["restart_pod", "rollback_deployment", "replace_pod",
     "rebuild_deployment", "trigger_heal", "trigger_code_fix",
     "scale_up", "scale_down", "do_nothing"]
  max_replicas := 20
  min_replicas := 1
  protected_resources := ["database", "storage", "backup", "critical-service"]
  dangerous_actions :=
    ["delete_service", "delete_deployment", "delete_namespace",
     "delete_pod", "drop_database", "format_disk", "shutdown_all"]

/-- `SafetyLayer._is_deletion_action`: the action name, lower-cased, contains
one of the deletion keywords (the `params` argument is unused in the source). -/
def is_deletion_action (action : String) : Bool :=
  ["delete", "remove", "drop", "destroy", "kill"].any
    (fun k => strContains (strLower action) k)

/-- `SafetyLayer.validate_action`.  Returns `(is_safe, error_message,
corrected_action)`.  The five checks run in source order with early return;
`oracle` stands for `_contains_unsafe_patterns(str(action_params))`. -/
def validate_action (cfg : SafetyConfig) (oracle : ActionParams → Bool)
    (action : String) (action_params : Option ActionParams) :
    Bool × Option String × ActionParams :=
  let ap := action_params.getD {}
  let corrected : ActionParams := { ap with action := some (ap.action.getD action) }
  let tr := ap.target_replicas.getD (ap.replicas.getD 0)
  if ¬ cfg.allowed_actions.contains action then
    (false, some ("Action '" ++ action ++ "' is not in allowed actions list"), corrected)
  else if is_deletion_action action &&
      cfg.protected_resources.any
        (fun p => strContains (strLower (ap.resource_name.getD "")) p) then
    (false, some ("Cannot delete protected resource: " ++ (strLower (ap.resource_name.getD ""))),
     corrected)
  else if strContains action "scale" && tr > cfg.max_replicas then
    (false, some ("Target replicas " ++ toString tr ++ " exceeds maximum " ++
       toString cfg.max_replicas),
     { corrected with target_replicas := some cfg.max_replicas })
  else if strContains action "scale" && tr < cfg.min_replicas then
    (false, some ("Target replicas " ++ toString tr ++ " below minimum " ++
       toString cfg.min_replicas),
     { corrected with target_replicas := some cfg.min_replicas })
  else if oracle ap then
    (false, some "Action parameters contain unsafe instructions", corrected)
  else if cfg.dangerous_actions.contains action then
    (false, some ("Dangerous action '" ++ action ++ "' is not allowed"), corrected)
  else (true, none, corrected)

/-- `SafetyLayer.sanitize_output`.  On an unsafe validation the action is
replaced by `corrected.get("action", "do_nothing")` (the `corrected` dict
always carries an `"action"` key, so the `"do_nothing"` default is dead
code), the parameters are replaced by `corrected`, and
`safety_corrected`/`safety_warning` are set; the confidence is then clamped
to `[0, 1]` with default `0.5`. -/
def sanitize_output (cfg : SafetyConfig) (oracle : ActionParams → Bool)
    (d : Decision) : Decision :=
  let action := d.action.getD ""
  let v := validate_action cfg oracle action d.action_params
  let s1 :=
    if v.1 then { d with safety_corrected := some false }
    else { d with
      action := some (v.2.2.action.getD "do_nothing"),
      action_params := some v.2.2,
      safety_corrected := some true,
      safety_warning := v.2.1 }
  { s1 with confidence := some (max 0 (min 1 (s1.confidence.getD (1/2)))) }

/-- `SafetyLayer.apply_safety_checks`.  Sanitizes the decision, then clamps
scale targets against the context (`current_replicas`, default 1), then
forces `do_nothing` for deletion actions on protected resources, and finally
sets `safety_checked` and `is_safe = not safety_corrected`.

Both replica comparisons use the `target_replicas` value read before any
correction, exactly as the source reads it into a local variable; the
in-place dict mutations become functional record updates (whenever the
source reaches a mutation of `safe_decision["action_params"]` that key is
present, so no `KeyError` path needs modelling). -/
def apply_safety_checks (cfg : SafetyConfig) (oracle : ActionParams → Bool)
    (d : Decision) (ctx : EventCtx) : Decision :=
  let safe0 := sanitize_output cfg oracle d
  let action := safe0.action.getD ""
  let ap0 := safe0.action_params.getD {}
  let current := ctx.current_replicas.getD 1
  let tr := ap0.target_replicas.getD current
  let safe1 :=
    if strContains action "scale" && tr > cfg.max_replicas then
      { safe0 with
        action_params := some { ap0 with target_replicas := some cfg.max_replicas },
        safety_corrected := some true,
        safety_warning := some ("Scaling limited to maximum " ++
          toString cfg.max_replicas ++ " replicas") }
    else safe0
  let ap1 := (safe1.action_params.getD {})
  let safe2 :=
    if strContains action "scale" && tr < cfg.min_replicas then
      { safe1 with
        action_params := some { ap1 with target_replicas := some cfg.min_replicas },
        safety_corrected := some true,
        safety_warning := some ("Scaling limited to minimum " ++
          toString cfg.min_replicas ++ " replicas") }
    else safe1
  let rn := ap0.resource_name.getD ""
  let safe3 :=
    if rn ≠ "" &&
        cfg.protected_resources.any (fun p => strContains (strLower rn) p) &&
        is_deletion_action action then
      { safe2 with
        action := some "do_nothing",
        safety_corrected := some true,
        safety_warning := some ("Cannot delete protected resource: " ++ rn) }
    else safe2
  { safe3 with
    safety_checked := some true,
    is_safe := some (! (safe3.safety_corrected.getD false)) }

/-! ## Confidence estimator (`src/ai-engine/meta-agent/confidence_estimator.py`)

`ConfidenceEstimator.component_history` is a dict
`source → {successes, failures, count, total_confidence}`, embedded as an
association list; `np.std` is abstracted as the parameter `nstd` (see the
header).
-/

/-- One entry of the reliability ledger `component_history`. -/
structure CompHist where
  successes : ℕ
  failures : ℕ
  count : ℕ
  total_confidence : ℚ
deriving DecidableEq

/-- `np.mean` on a list of rationals (the embedded code only applies it to
nonempty lists; `[]` would give numpy's `nan`, here `0/0 = 0`). -/
def listMean (xs : List ℚ) : ℚ :=
  xs.sum / (xs.length : ℚ)

/-- `ConfidenceEstimator._get_historical_accuracy`: mean of `successes/count`
over the recommendation sources that are present in the ledger with a
positive count; `0.5` when no recommendation or no source has history. -/
def get_historical_accuracy (history : List (String × CompHist))
    (recs : List Recommendation) : ℚ :=
  if recs.isEmpty then 1/2
  else
    let accuracies := recs.filterMap (fun r =>
      match history.lookup (r.source.getD "unknown") with
      | some h => if h.count > 0 then some ((h.successes : ℚ) / (h.count : ℚ)) else none
      | none => none)
    if accuracies.isEmpty then 1/2 else listMean accuracies

/-- The maximal multiplicity in a list of action names:
`Counter(actions).most_common(1)[0][1]`. -/
def mostCommonCount (actions : List String) : ℕ :=
  (actions.map (fun a => actions.count a)).foldr max 0

/-- `ConfidenceEstimator._calculate_model_agreement`. -/
def calculate_model_agreement (nstd : List ℚ → ℚ) (recs : List Recommendation) : ℚ :=
  if recs.length ≤ 1 then 1
  else
    let actions := recs.map (fun r => r.action.getD "unknown")
    let agreement := (mostCommonCount actions : ℚ) / (actions.length : ℚ)
    let confidences := recs.map (fun r => r.confidence.getD 0)
    if confidences.isEmpty then agreement
    else (agreement + (1 - min 1 (nstd confidences))) / 2

/-- `ConfidenceEstimator._calculate_weighted_confidence`; a `component_weights`
dict that is `None` or empty (falsy) yields the plain mean. -/
def calculate_weighted_confidence (recs : List Recommendation)
    (component_weights : Option (List (String × ℚ))) : ℚ :=
  match component_weights with
  | some ws =>
    if ws.isEmpty then listMean (recs.map (fun r => r.confidence.getD 0))
    else
      let total := (recs.map (fun r => (ws.lookup (r.source.getD "unknown")).getD 1)).sum
      if total > 0 then
        (recs.map (fun r =>
          (r.confidence.getD 0) * ((ws.lookup (r.source.getD "unknown")).getD 1))).sum / total
      else listMean (recs.map (fun r => r.confidence.getD 0))
  | none => listMean (recs.map (fun r => r.confidence.getD 0))

/-- The `details` dict returned by `estimate_confidence`. -/
structure ConfDetails where
  agreement_score : ℚ
  historical_accuracy : ℚ
  complexity_factor : ℚ
  risk_factor : ℚ
  weighted_confidence : ℚ
  final_confidence : ℚ
  situation_complexity : ℚ
  risk_score : ℚ
deriving DecidableEq

/-- `ConfidenceEstimator.estimate_confidence`: returns `(confidence, details)`;
`(0.0, none)` for an empty recommendation list (the source returns a
reason-only details dict there), otherwise the weighted factor combination
clamped to `[0, 1]`. -/
def estimate_confidence (nstd : List ℚ → ℚ) (history : List (String × CompHist))
    (recs : List Recommendation) (situation_complexity risk_score : ℚ)
    (component_weights : Option (List (String × ℚ))) : ℚ × Option ConfDetails :=
  if recs.isEmpty then (0, none)
  else
    let agreement_score := calculate_model_agreement nstd recs
    let historical_accuracy := get_historical_accuracy history recs
    let complexity_factor := 1 - situation_complexity
    let risk_factor := 1 - risk_score
    let weighted_confidence := calculate_weighted_confidence recs component_weights
    let confidence := max 0 (min 1 (agreement_score * (3/10) + historical_accuracy * (3/10) +
      complexity_factor * (2/10) + risk_factor * (1/10) + weighted_confidence * (1/10)))
    (confidence,
     some { agreement_score := agreement_score,
            historical_accuracy := historical_accuracy,
            complexity_factor := complexity_factor,
            risk_factor := risk_factor,
            weighted_confidence := weighted_confidence,
            final_confidence := confidence,
            situation_complexity := situation_complexity,
            risk_score := risk_score })

/-! ## Orchestrator (`src/ai-engine/meta-agent/orchestrator.py`)

`_gather_intelligence` queries the external advisors (RL, GNN, Transformer
forecaster, LLM); their outputs are out of scope of this spec, so the
gathered `intelligence` dict is taken as the input `Intel` of the embedded
pipeline.  Likewise the routing result of `DecisionRouter.route_event` only
contributes `target_agent` to the decision and is taken as an input.  The
memory writes and the dispatch call do not alter the decision or plan values
(apart from a `stored_at` timestamp key that is never read) and are embedded
separately with the memory system. -/

/-- `intelligence["llm"]` projection: the keys read by `_choose_best_action`. -/
structure LLMIntel where
  action : Option String := none
  confidence : Option ℚ := none
deriving DecidableEq

/-- `intelligence["transformers"]["forecast"]` projection. -/
structure Forecast where
  cpu_forecast : List ℚ := []
  error_burst : List ℚ := []
deriving DecidableEq

/-- The `intelligence` dict gathered from the advisors: a key is absent
(`none`) when the corresponding advisor is missing or failed.  The RL entry
is the `(action, confidence)` pair returned by `choose_action`; the GNN
entry is the `failure_propagation` dict as an insertion-ordered association
list. -/
structure Intel where
  rl : Option (String × ℚ) := none
  llm : Option LLMIntel := none
  gnn : Option (List (String × ℚ)) := none
  transformers : Option Forecast := none
deriving DecidableEq

/-- Python `max(iterable, key=...)` with an explicit first element: the
current best is replaced only by a strictly greater key, so the first
element attaining the maximum wins. -/
def pyMaxBy {α : Type} (key : α → ℚ) : α → List α → α
  | best, [] => best
  | best, x :: xs => pyMaxBy key (if key x > key best then x else best) xs

/-- Recommendation collection of `_choose_best_action` (source order:
RL, then LLM, then GNN, then Transformer forecast; the GNN entry only when
`failure_propagation` is nonempty, the forecast entry only when
`cpu_forecast` is nonempty with mean above 80). -/
def collect_recommendations (intel : Intel) : List Recommendation :=
  (match intel.rl with
   | some (a, c) => [{ action := some a, confidence := some c, source := some "rl_agent" }]
   | none => []) ++
  (match intel.llm with
   | some l => [{ action := some (l.action.getD "no_action"),
                  confidence := some (l.confidence.getD (1/2)),
                  source := some "llm_reasoning" }]
   | none => []) ++
  (match intel.gnn with
   | some [] => []
   | some (p :: rest) =>
     [{ action := some "trigger_heal",
        confidence := some (pyMaxBy Prod.snd p rest).2,
        source := some "gnn" }]
   | none => []) ++
  (match intel.transformers with
   | some f =>
     if f.cpu_forecast.isEmpty then []
     else if listMean f.cpu_forecast > 80 then
       [{ action := some "scale_up",
          confidence := some (min 1 (listMean f.cpu_forecast / 100)),
          source := some "transformers" }]
     else []
   | none => [])

/-- Number of keys of the `intelligence` dict. -/
def intelCount (intel : Intel) : ℕ :=
  (if intel.rl.isSome then 1 else 0) + (if intel.llm.isSome then 1 else 0) +
  (if intel.gnn.isSome then 1 else 0) + (if intel.transformers.isSome then 1 else 0)

/-- `MetaAgentOrchestrator._assess_complexity`. -/
def assess_complexity (event : EventCtx) (intel : Intel) : ℚ :=
  let c1 : ℚ := if intelCount intel > 2 then 3/10 else 0
  let c2 : ℚ := if event.failure_count.getD 0 > 1 then 3/10 else 0
  let c3 : ℚ := match intel.gnn with
    | some [] => 0
    | some (p :: rest) => ((rest.map Prod.snd).foldl max p.2) * (4/10)
    | none => 0
  min 1 (c1 + c2 + c3)

/-- `MetaAgentOrchestrator._calculate_risk_score`. -/
def calculate_risk_score (event : EventCtx) (intel : Intel) : ℚ :=
  let severity := event.severity.getD "medium"
  let sev_val : ℚ :=
    if severity = "low" then 2/10
    else if severity = "medium" then 5/10
    else if severity = "high" then 8/10
    else if severity = "critical" then 1
    else 5/10
  let r2 : ℚ := match intel.gnn with
    | some [] => 0
    | some (p :: rest) => listMean ((p :: rest).map Prod.snd) * (3/10)
    | none => 0
  let r3 : ℚ := match intel.transformers with
    | some f =>
      if f.error_burst.isEmpty then 0
      else if f.error_burst.any (fun x => x > 1/2) then 3/10 else 0
    | none => 0
  min 1 (sev_val * (4/10) + r2 + r3)

/-- `MetaAgentOrchestrator._choose_best_action`: short-circuits to a
`do_nothing` decision on an empty recommendation list, otherwise picks the
maximum-confidence recommendation (Python `max`: first collected wins a
tie). -/
def choose_best_action (intel : Intel) (event : EventCtx)
    (routing_target : Option String) : Decision :=
  match collect_recommendations intel with
  | [] =>
    { action := some "do_nothing", confidence := some 0,
      recommendations := [], risk_score := some (1/2) }
  | r :: rest =>
    let best := pyMaxBy (fun x => x.confidence.getD 0) r rest
    { action := some (best.action.getD "no_action"),
      confidence := some (best.confidence.getD (1/2)),
      recommendations := collect_recommendations intel,
      risk_score := some (calculate_risk_score event intel),
      target_agent := routing_target }

/-- One step of a recovery plan. -/
structure PlanStep where
  step : ℕ
  action : String
  duration : ℕ
deriving DecidableEq

/-- The optional rollback entry of a recovery plan. -/
structure RollbackPlan where
  action : String
  duration : ℕ
deriving DecidableEq

/-- `_coordinate_recovery_plan` result dict. -/
structure RecoveryPlan where
  steps : List PlanStep
  estimated_duration : ℕ
  rollback_plan : Option RollbackPlan
deriving DecidableEq

/-- `MetaAgentOrchestrator._coordinate_recovery_plan`: the static table keyed
on `decision.get("action", "no_action")`. -/
def coordinate_recovery_plan (decision : Decision) : RecoveryPlan :=
  let action := decision.action.getD "no_action"
  if action = "restart_pod" then
    { steps := [⟨1, "identify_failed_pod", 5⟩, ⟨2, "restart_pod", 30⟩,
                ⟨3, "verify_health", 60⟩],
      estimated_duration := 95, rollback_plan := none }
  else if action = "scale_up" then
    { steps := [⟨1, "calculate_target_replicas", 5⟩, ⟨2, "scale_deployment", 60⟩,
                ⟨3, "verify_scaling", 120⟩],
      estimated_duration := 185, rollback_plan := none }
  else if action = "rebuild_deployment" then
    { steps := [⟨1, "backup_current_state", 30⟩, ⟨2, "rebuild_deployment", 180⟩,
                ⟨3, "verify_deployment", 120⟩, ⟨4, "rollback_if_needed", 60⟩],
      estimated_duration := 390, rollback_plan := some ⟨"restore_backup", 120⟩ }
  else
    { steps := [⟨1, "monitor_situation", 60⟩],
      estimated_duration := 60, rollback_plan := none }

/-- The parts of the `process_event` return value settled by the claims. -/
structure ProcessResult where
  decision : Decision
  recovery_plan : RecoveryPlan
deriving DecidableEq

/-- `MetaAgentOrchestrator.process_event` decision pipeline: choose the best
action, build the recovery plan from the pre-safety decision, estimate the
confidence (weights default `None`), apply the safety checks against the
event as context, then overwrite the confidence with the estimate. -/
def process_event (nstd : List ℚ → ℚ) (oracle : ActionParams → Bool)
    (history : List (String × CompHist)) (routing_target : Option String)
    (intel : Intel) (event : EventCtx) : ProcessResult :=
  let decision := choose_best_action intel event routing_target
  let recovery_plan := coordinate_recovery_plan decision
  let conf := (estimate_confidence nstd history decision.recommendations
    (assess_complexity event intel) (decision.risk_score.getD (1/2)) none).1
  let safe0 := apply_safety_checks defaultSafety oracle decision event
  { decision := { safe0 with confidence := some conf },
    recovery_plan := recovery_plan }

/-- Accuracies contributing to the historical factor per the amended claim:
one entry `successes/count` for each recommendation whose source appears in
the reliability ledger with a positive count; unseen sources are skipped. -/
def contrib_accuracies (history : List (String × CompHist))
    (recs : List Recommendation) : List ℚ :=
  recs.filterMap (fun r =>
    (history.lookup (r.source.getD "unknown")).bind
      (fun h => if 0 < h.count then some ((h.successes : ℚ) / (h.count : ℚ)) else none))

/-- Historical-accuracy formula exactly as claim C9 states it: the mean over
all contributing sources, an unseen source contributing the default 0.5. -/
def claim_historical_accuracy (history : List (String × CompHist))
    (recs : List Recommendation) : ℚ :=
  listMean (recs.map (fun r =>
    match history.lookup (r.source.getD "unknown") with
    | some h => if 0 < h.count then (h.successes : ℚ) / (h.count : ℚ) else 1/2
    | none => 1/2))

/-! ## Memory system (`src/ai-engine/meta-agent/memory.py`)

Python dicts that are used as keyed stores (`archives`, `patterns`,
embedding maps, `active_plans`) are embedded as insertion-ordered
association lists with the dict operations `dictInsert` (assign, replacing
in place) and `eraseKey` (`del`); their keys are unique by construction.
ISO-format wall-clock timestamps, whose lexicographic order is the
chronological order, are embedded as `ℕ` values supplied by the caller. -/

/-- Python dict assignment `m[k] = v`: replaces in place when the key
exists, appends otherwise. -/
def dictInsert {β : Type} (k : String) (v : β) (l : List (String × β)) :
    List (String × β) :=
  if l.any (fun p => p.1 == k) then
    l.map (fun p => if p.1 == k then (k, v) else p)
  else l ++ [(k, v)]

/-- Python dict deletion `del m[k]`. -/
def eraseKey {β : Type} (k : String) : List (String × β) → List (String × β)
  | [] => []
  | p :: rest => if p.1 == k then rest else p :: eraseKey k rest

/-- One archive entry of `DecisionArchive.archive_decision`. -/
structure ArchiveEntry where
  decision_id : String
  timestamp : ℕ
  decision : Decision
  context : EventCtx
  outcome : Option (List (String × String)) := none
  success : Option Bool := none
deriving DecidableEq

/-- State of class `DecisionArchive`. -/
structure DecisionArchive where
  max_size : ℕ
  archives : List (String × ArchiveEntry)
  patterns : List (String × List (String × String))
deriving DecidableEq

/-- `DecisionArchive.archive_decision`: store the entry under its id, then,
when over `max_size`, sort the items by timestamp (Python `sorted` is
stable, as is `List.insertionSort`) and delete the oldest ids until the
bound holds. -/
def archive_decision (arch : DecisionArchive) (now : ℕ) (decision_id : String)
    (decision : Decision) (context : EventCtx)
    (outcome : Option (List (String × String))) (success : Option Bool) :
    DecisionArchive :=
  let entry : ArchiveEntry :=
    { decision_id := decision_id, timestamp := now, decision := decision,
      context := context, outcome := outcome, success := success }
  let m := dictInsert decision_id entry arch.archives
  let m :=
    if m.length > arch.max_size then
      let sorted_entries := List.insertionSort
        (fun p q : String × ArchiveEntry => p.2.timestamp ≤ q.2.timestamp) m
      ((sorted_entries.take (m.length - arch.max_size)).map Prod.fst).foldl
        (fun acc k => eraseKey k acc) m
    else m
  { arch with archives := m }

/-- State of class `ShortTermMemory`. -/
structure ShortTermMemory where
  max_events : ℕ
  max_decisions : ℕ
  recent_events : List EventCtx
  recent_decisions : List Decision
  active_plans : List (String × RecoveryPlan)
deriving DecidableEq

/-- State of class `LongTermEmbeddings` (embedding vectors as rational
lists, metadata as the stored decision/context pair). -/
structure LongTermEmbeddings where
  embedding_dim : ℕ
  decision_embeddings : List (String × List ℚ)
  pattern_embeddings : List (String × List ℚ)
  embeddings_metadata : List (String × (Decision × EventCtx))
deriving DecidableEq

/-- State of the `MetaAgentMemory` facade. -/
structure MetaAgentMemory where
  short_term : ShortTermMemory
  long_term_embeddings : LongTermEmbeddings
  decision_archive : DecisionArchive
deriving DecidableEq

/-- `MetaAgentMemory.update_decision_outcome`: when the id is archived, set
the `outcome` and `success` keys of that entry in place; otherwise do
nothing. -/
def update_decision_outcome (mem : MetaAgentMemory) (decision_id : String)
    (outcome : List (String × String)) (success : Bool) : MetaAgentMemory :=
  if mem.decision_archive.archives.any (fun p => p.1 == decision_id) then
    { mem with decision_archive := { mem.decision_archive with
        archives := mem.decision_archive.archives.map (fun p =>
          if p.1 == decision_id then
            (p.1, { p.2 with outcome := some outcome, success := some success })
          else p) } }
  else mem

/-- One insertion as performed by `MetaAgentMemory.store_decision`. -/
structure ArchiveInsert where
  decision_id : String
  timestamp : ℕ
  decision : Decision
  context : EventCtx
deriving DecidableEq

/-- The archive entry created for an insertion (no outcome yet). -/
def insertEntry (i : ArchiveInsert) : ArchiveEntry :=
  { decision_id := i.decision_id, timestamp := i.timestamp,
    decision := i.decision, context := i.context }

/-- A sequence of `archive_decision` calls. -/
def archiveFold (arch : DecisionArchive) (ins : List ArchiveInsert) : DecisionArchive :=
  ins.foldl (fun a i =>
    archive_decision a i.timestamp i.decision_id i.decision i.context none none) arch

/-! ## Characterization lemmas for the safety layer -/

/-- The corrected parameters returned by `validate_action` always carry the
`"action"` key: the original action unless `action_params` overrides it. -/
theorem validate_corrected_action (cfg : SafetyConfig) (oracle : ActionParams → Bool)
    (action : String) (ps : Option ActionParams) :
    (validate_action cfg oracle action ps).2.2.action
      = some ((ps.getD {}).action.getD action) := by
  simp only [validate_action]
  split_ifs <;> rfl

/-- `validate_action` never changes the `resource_name` parameter. -/
theorem validate_corrected_resource (cfg : SafetyConfig) (oracle : ActionParams → Bool)
    (action : String) (ps : Option ActionParams) :
    (validate_action cfg oracle action ps).2.2.resource_name
      = (ps.getD {}).resource_name := by
  simp only [validate_action]
  split_ifs <;> rfl

/-- Every unsafe verdict of `validate_action` carries an error message. -/
theorem validate_unsafe_has_msg (cfg : SafetyConfig) (oracle : ActionParams → Bool)
    (action : String) (ps : Option ActionParams)
    (h : (validate_action cfg oracle action ps).1 = false) :
    (validate_action cfg oracle action ps).2.1.isSome = true := by
  simp only [validate_action] at *
  split_ifs at h ⊢ <;> simp_all

/-- When the input `action_params` do not override the action,
`sanitize_output` leaves the action unchanged. -/
theorem sanitize_output_action (cfg : SafetyConfig) (oracle : ActionParams → Bool)
    (d : Decision) (a : String) (ha : d.action = some a)
    (hnoov : (d.action_params.getD {}).action = none) :
    (sanitize_output cfg oracle d).action = some a := by
  simp only [sanitize_output]
  split
  · simpa using ha
  · simp [validate_corrected_action, hnoov, ha]

/-- `sanitize_output` never changes the `resource_name` parameter. -/
theorem sanitize_output_resource (cfg : SafetyConfig) (oracle : ActionParams → Bool)
    (d : Decision) :
    ((sanitize_output cfg oracle d).action_params.getD {}).resource_name
      = (d.action_params.getD {}).resource_name := by
  simp only [sanitize_output]
  split
  · rfl
  · simp [validate_corrected_resource]

/-- A string matched by one of the default protected substrings is nonempty. -/
theorem protected_any_ne_empty (s : String)
    (h : defaultSafety.protected_resources.any
      (fun p => strContains (strLower s) p) = true) : s ≠ "" := by
  intro he
  subst he
  revert h
  decide

/-! ## Claim C1 -/

/-- C1 (amended): for every decision whose action is a deletion action and
whose `action_params` name a resource containing a protected substring
(after lower-casing, as the source compares), and whose `action_params` do
not themselves carry an `"action"` key, `apply_safety_checks` returns a
decision with action `"do_nothing"` and `safety_corrected = true`, for every
context, every input confidence and every unsafe-pattern predicate. -/
theorem protected_deletion_forces_do_nothing
    (oracle : ActionParams → Bool) (d : Decision) (ctx : EventCtx) (a : String)
    (ha : d.action = some a)
    (hdel : is_deletion_action a = true)
    (hnoov : (d.action_params.getD {}).action = none)
    (hprot : defaultSafety.protected_resources.any
      (fun p => strContains (strLower ((d.action_params.getD {}).resource_name.getD "")) p)
        = true) :
    (apply_safety_checks defaultSafety oracle d ctx).action = some "do_nothing" ∧
    (apply_safety_checks defaultSafety oracle d ctx).safety_corrected = some true := by
  have hs0a := sanitize_output_action defaultSafety oracle d a ha hnoov
  have hs0r := sanitize_output_resource defaultSafety oracle d
  have hne : ((d.action_params.getD {}).resource_name.getD "") ≠ "" :=
    protected_any_ne_empty _ hprot
  have hcond : (decide (((d.action_params.getD {}).resource_name.getD "") ≠ "") &&
      (defaultSafety.protected_resources.any fun p =>
        strContains (strLower ((d.action_params.getD {}).resource_name.getD "")) p) &&
      is_deletion_action a) = true := by
    simp [hne, hprot, hdel]
  simp only [apply_safety_checks, hs0a, Option.getD_some, hs0r, hcond]
  simp

/-- Witness for C1: the spec's Scenario C input (`delete_service` on
`prod-database-backup`) discharges every  hypothesis. -/
theorem protected_deletion_forces_do_nothing_witness :
    (apply_safety_checks defaultSafety (fun _ => false)
      { action := some "delete_service",
        action_params := some { resource_name := some "prod-database-backup" } }
      {}).action = some "do_nothing" ∧
    (apply_safety_checks defaultSafety (fun _ => false)
      { action := some "delete_service",
        action_params := some { resource_name := some "prod-database-backup" } }
      {}).safety_corrected = some true :=
  protected_deletion_forces_do_nothing (fun _ => false)
    { action := some "delete_service",
      action_params := some { resource_name := some "prod-database-backup" } }
    {} "delete_service" rfl (by decide) rfl (by decide)

/-- Counterexample to C1 as stated: an `"action"` key inside `action_params`
overrides the decision action when `validate_action` builds
`corrected_action = {"action": action, **action_params}`, so a deletion of a
protected resource can come out as the overriding (non-deletion) action
instead of `"do_nothing"`.  (The real
`_contains_unsafe_patterns(str(params))` scan matches nothing on these
parameters, so the predicate is instantiated with `false`.) -/
theorem protected_deletion_override_cex :
    is_deletion_action "delete_service" = true ∧
    (defaultSafety.protected_resources.any
      (fun p => strContains (strLower "prod-database") p)) = true ∧
    (apply_safety_checks defaultSafety (fun _ => false)
      { action := some "delete_service",
        action_params := some { action := some "restart_pod",
                                resource_name := some "prod-database" } }
      {}).action = some "restart_pod" ∧
    ¬ (apply_safety_checks defaultSafety (fun _ => false)
      { action := some "delete_service",
        action_params := some { action := some "restart_pod",
                                resource_name := some "prod-database" } }
      {}).action = some "do_nothing" := by decide

/-! ## Claim C2 -/

/-- C2 (code bug): an action outside the static allow-list is *not* forced
to `"do_nothing"`: `sanitize_output` replaces the action by
`corrected.get("action", "do_nothing")`, and the `corrected` dict built by
`validate_action` always carries the original action under `"action"`, so
the `"do_nothing"` default is dead code and the disallowed action passes
through (only flagged via `safety_corrected`/`safety_warning`).  Evaluated
here on the disallowed (and even "dangerous"-listed) action
`"format_disk"`. -/
theorem disallowed_action_passes_through :
    defaultSafety.allowed_actions.contains "format_disk" = false ∧
    (apply_safety_checks defaultSafety (fun _ => false)
      { action := some "format_disk" } {}).action = some "format_disk" ∧
    (apply_safety_checks defaultSafety (fun _ => false)
      { action := some "format_disk" } {}).safety_corrected = some true ∧
    ¬ (apply_safety_checks defaultSafety (fun _ => false)
      { action := some "format_disk" } {}).action = some "do_nothing" := by decide

/-! ## Claim C3 -/

/-- On a safe validation `sanitize_output` leaves `action_params` unchanged. -/
theorem sanitize_safe_params (cfg : SafetyConfig) (oracle : ActionParams → Bool)
    (d : Decision)
    (h : (validate_action cfg oracle (d.action.getD "") d.action_params).1 = true) :
    (sanitize_output cfg oracle d).action_params = d.action_params := by
  simp only [sanitize_output]
  split
  · rfl
  · simp_all

/-- On an unsafe validation `sanitize_output` marks the decision corrected
and stores the validation error as `safety_warning`. -/
theorem sanitize_unsafe_flags (cfg : SafetyConfig) (oracle : ActionParams → Bool)
    (d : Decision)
    (h : (validate_action cfg oracle (d.action.getD "") d.action_params).1 = false) :
    (sanitize_output cfg oracle d).safety_corrected = some true ∧
    (sanitize_output cfg oracle d).safety_warning.isSome = true := by
  have hm := validate_unsafe_has_msg cfg oracle (d.action.getD "") d.action_params h
  simp only [sanitize_output]
  split
  · simp_all
  · simp_all

/-- Target-replica key of the parameters produced by `sanitize_output` for a
"scale" action that is not a protected-resource deletion: clamped by
`validate_action` when the action is allowed (check 3), passed through
unchanged when check 1 already rejected the action. -/
theorem sanitize_scale_target (cfg : SafetyConfig) (oracle : ActionParams → Bool)
    (d : Decision) (a : String)
    (ha : d.action = some a)
    (hscale : strContains a "scale" = true)
    (hc2 : (is_deletion_action a && cfg.protected_resources.any
      (fun p => strContains (strLower ((d.action_params.getD {}).resource_name.getD "")) p))
        = false) :
    ((sanitize_output cfg oracle d).action_params.getD {}).target_replicas =
      (if cfg.allowed_actions.contains a = true then
        (if (d.action_params.getD {}).target_replicas.getD
              ((d.action_params.getD {}).replicas.getD 0) > cfg.max_replicas then
          some cfg.max_replicas
        else if (d.action_params.getD {}).target_replicas.getD
              ((d.action_params.getD {}).replicas.getD 0) < cfg.min_replicas then
          some cfg.min_replicas
        else (d.action_params.getD {}).target_replicas)
      else (d.action_params.getD {}).target_replicas) := by
  simp only [sanitize_output, validate_action, ha, Option.getD_some, hscale, hc2,
    Bool.false_eq_true, if_false, Bool.true_and]
  split_ifs <;> simp_all

/-- The protected-resource branch of `apply_safety_checks` never fires when
the action is not a deletion of a protected resource. -/
theorem scale_cond3_false (oracle : ActionParams → Bool) (d : Decision) (a : String)
    (hnodel : is_deletion_action a = true →
      defaultSafety.protected_resources.any
        (fun p => strContains (strLower ((d.action_params.getD {}).resource_name.getD "")) p)
          = false) :
    (decide ((((sanitize_output defaultSafety oracle d).action_params.getD {}).resource_name.getD "")
        ≠ "") &&
      defaultSafety.protected_resources.any
        (fun p => strContains
          (strLower (((sanitize_output defaultSafety oracle d).action_params.getD {}).resource_name.getD "")) p) &&
      is_deletion_action a) = false := by
  rw [sanitize_output_resource]
  cases hid : is_deletion_action a
  · simp
  · simp [hnodel hid]

/-- Without a protected-resource deletion and without an `"action"` override
in the parameters, `apply_safety_checks` keeps the decision action. -/
theorem scale_action_preserved (oracle : ActionParams → Bool) (d : Decision) (ctx : EventCtx)
    (a : String)
    (ha : d.action = some a)
    (hnoov : (d.action_params.getD {}).action = none)
    (hnodel : is_deletion_action a = true →
      defaultSafety.protected_resources.any
        (fun p => strContains (strLower ((d.action_params.getD {}).resource_name.getD "")) p)
          = false) :
    (apply_safety_checks defaultSafety oracle d ctx).action = some a := by
  have hs0a := sanitize_output_action defaultSafety oracle d a ha hnoov
  have hc3 := scale_cond3_false oracle d a hnodel
  simp only [apply_safety_checks, hs0a, Option.getD_some, hc3]
  split_ifs <;> simp_all

/-- Any `target_replicas` value present in the checked decision of a scale
action lies within the configured replica bounds. -/
theorem scale_out_target_bound (oracle : ActionParams → Bool) (d : Decision) (ctx : EventCtx)
    (a : String)
    (ha : d.action = some a)
    (hscale : strContains a "scale" = true)
    (hnoov : (d.action_params.getD {}).action = none)
    (hnodel : is_deletion_action a = true →
      defaultSafety.protected_resources.any
        (fun p => strContains (strLower ((d.action_params.getD {}).resource_name.getD "")) p)
          = false) :
    ∀ v, ((apply_safety_checks defaultSafety oracle d ctx).action_params.getD {}).target_replicas
        = some v →
      defaultSafety.min_replicas ≤ v ∧ v ≤ defaultSafety.max_replicas := by
  intro v hv
  have hs0a := sanitize_output_action defaultSafety oracle d a ha hnoov
  have hc3 := scale_cond3_false oracle d a hnodel
  revert hv
  simp only [apply_safety_checks, hs0a, Option.getD_some, hc3, hscale, Bool.true_and]
  split_ifs <;> intro hv <;> simp_all [defaultSafety] <;> omega

/-- A `target_replicas` value given in the input parameters of a scale action
comes out exactly clamped into `[min_replicas, max_replicas]`. -/
theorem scale_clamp_formula (oracle : ActionParams → Bool) (d : Decision) (ctx : EventCtx)
    (a : String) (v : Int)
    (ha : d.action = some a)
    (hscale : strContains a "scale" = true)
    (hnoov : (d.action_params.getD {}).action = none)
    (hnodel : is_deletion_action a = true →
      defaultSafety.protected_resources.any
        (fun p => strContains (strLower ((d.action_params.getD {}).resource_name.getD "")) p)
          = false)
    (hin : (d.action_params.getD {}).target_replicas = some v) :
    ((apply_safety_checks defaultSafety oracle d ctx).action_params.getD {}).target_replicas
      = some (max defaultSafety.min_replicas (min defaultSafety.max_replicas v)) := by
  have hs0a := sanitize_output_action defaultSafety oracle d a ha hnoov
  have hc3 := scale_cond3_false oracle d a hnodel
  have hc2 : (is_deletion_action a &&
      defaultSafety.protected_resources.any
        (fun p => strContains (strLower ((d.action_params.getD {}).resource_name.getD "")) p))
        = false := by
    cases hid : is_deletion_action a
    · simp
    · simp [hnodel hid]
  have hst := sanitize_scale_target defaultSafety oracle d a ha hscale hc2
  rw [hin] at hst
  simp only [Option.getD_some] at hst
  simp only [apply_safety_checks, hs0a, Option.getD_some, hc3, hscale, Bool.true_and]
  split_ifs at hst ⊢ <;> simp_all [defaultSafety] <;> omega

/-- Whenever the safety checks change the `target_replicas` value of a scale
decision, the result is flagged `safety_corrected` with a warning message. -/
theorem scale_change_flags (oracle : ActionParams → Bool) (d : Decision) (ctx : EventCtx)
    (a : String)
    (ha : d.action = some a)
    (hnoov : (d.action_params.getD {}).action = none)
    (hnodel : is_deletion_action a = true →
      defaultSafety.protected_resources.any
        (fun p => strContains (strLower ((d.action_params.getD {}).resource_name.getD "")) p)
          = false)
    (hch : ((apply_safety_checks defaultSafety oracle d ctx).action_params.getD {}).target_replicas
        ≠ (d.action_params.getD {}).target_replicas) :
    (apply_safety_checks defaultSafety oracle d ctx).safety_corrected = some true ∧
    ((apply_safety_checks defaultSafety oracle d ctx).safety_warning).isSome = true := by
  have hs0a := sanitize_output_action defaultSafety oracle d a ha hnoov
  have hc3 := scale_cond3_false oracle d a hnodel
  cases hv1 : (validate_action defaultSafety oracle (d.action.getD "") d.action_params).1
  · have hfl := sanitize_unsafe_flags defaultSafety oracle d hv1
    simp only [apply_safety_checks, hs0a, Option.getD_some, hc3]
    split_ifs <;> simp_all
  · have hsp := sanitize_safe_params defaultSafety oracle d hv1
    revert hch
    simp only [apply_safety_checks, hs0a, Option.getD_some, hc3, hsp]
    split_ifs <;> intro hch <;> simp_all

/-- C3 (amended): for every decision whose action contains "scale", whose
`action_params` carry no overriding `"action"` key, and which is not also a
deletion action naming a protected resource (in that case the
protected-resource check replaces the action by `"do_nothing"`, see the
counterexample), `apply_safety_checks` (default bounds 1 and 20): keeps the
scale action itself; any `target_replicas` in the result lies in
`[min_replicas, max_replicas]`; an input `target_replicas` is exactly
clamped into that interval; and whenever the value was changed the result
has `safety_corrected = true` and a descriptive `safety_warning`. -/
theorem scale_decisions_clamped (oracle : ActionParams → Bool) (d : Decision) (ctx : EventCtx)
    (a : String)
    (ha : d.action = some a)
    (hscale : strContains a "scale" = true)
    (hnoov : (d.action_params.getD {}).action = none)
    (hnodel : is_deletion_action a = true →
      defaultSafety.protected_resources.any
        (fun p => strContains (strLower ((d.action_params.getD {}).resource_name.getD "")) p)
          = false) :
    (apply_safety_checks defaultSafety oracle d ctx).action = some a ∧
    (∀ v, ((apply_safety_checks defaultSafety oracle d ctx).action_params.getD {}).target_replicas
        = some v →
      defaultSafety.min_replicas ≤ v ∧ v ≤ defaultSafety.max_replicas) ∧
    (∀ v, (d.action_params.getD {}).target_replicas = some v →
      ((apply_safety_checks defaultSafety oracle d ctx).action_params.getD {}).target_replicas
        = some (max defaultSafety.min_replicas (min defaultSafety.max_replicas v))) ∧
    (((apply_safety_checks defaultSafety oracle d ctx).action_params.getD {}).target_replicas
        ≠ (d.action_params.getD {}).target_replicas →
      (apply_safety_checks defaultSafety oracle d ctx).safety_corrected = some true ∧
      ((apply_safety_checks defaultSafety oracle d ctx).safety_warning).isSome = true) :=
  ⟨scale_action_preserved oracle d ctx a ha hnoov hnodel,
   scale_out_target_bound oracle d ctx a ha hscale hnoov hnodel,
   fun v hv => scale_clamp_formula oracle d ctx a v ha hscale hnoov hnodel hv,
   fun hch => scale_change_flags oracle d ctx a ha hnoov hnodel hch⟩

/-- Witness for C3: the spec's Scenario B input (`scale_up` with
`target_replicas = 50` against `max_replicas = 20`) discharges the
hypotheses; the target comes out as 20 with `safety_corrected = true`. -/
theorem scale_decisions_clamped_witness :
    (apply_safety_checks defaultSafety (fun _ => false)
      { action := some "scale_up", action_params := some { target_replicas := some 50 } }
      {}).action = some "scale_up" ∧
    ((apply_safety_checks defaultSafety (fun _ => false)
      { action := some "scale_up", action_params := some { target_replicas := some 50 } }
      {}).action_params.getD {}).target_replicas = some 20 ∧
    (apply_safety_checks defaultSafety (fun _ => false)
      { action := some "scale_up", action_params := some { target_replicas := some 50 } }
      {}).safety_corrected = some true := by
  have h := scale_decisions_clamped (fun _ => false)
    { action := some "scale_up", action_params := some { target_replicas := some 50 } }
    {} "scale_up" rfl (by decide) (by decide) (by decide)
  refine ⟨h.1, ?_, ?_⟩
  · have h3 := h.2.2.1 50 (by decide)
    simpa [defaultSafety] using h3
  · refine (h.2.2.2 ?_).1
    have h3 := h.2.2.1 50 (by decide)
    rw [h3]
    decide

/-- Counterexample to C3 as stated: a decision whose action contains
"scale" is *not* immune to action replacement - `"scale_destroy"` on the
protected resource `"prod-database"` is a deletion action, so the
protected-resource check rewrites the action to `"do_nothing"`, while the
claim asserts the scale action itself is never replaced. -/
theorem scale_deletion_replaced_cex :
    strContains "scale_destroy" "scale" = true ∧
    (apply_safety_checks defaultSafety (fun _ => false)
      { action := some "scale_destroy",
        action_params := some { resource_name := some "prod-database",
                                target_replicas := some 50 } }
      {}).action = some "do_nothing" ∧
    ¬ (apply_safety_checks defaultSafety (fun _ => false)
      { action := some "scale_destroy",
        action_params := some { resource_name := some "prod-database",
                                target_replicas := some 50 } }
      {}).action = some "scale_destroy" := by decide

/-! ## Claims C4, C5, C7, C8, C9 -/

/-- `sanitize_output` always sets the `safety_corrected` key. -/
theorem sanitize_output_corrected_isSome (cfg : SafetyConfig) (oracle : ActionParams → Bool)
    (d : Decision) :
    ∃ b, (sanitize_output cfg oracle d).safety_corrected = some b := by
  simp only [sanitize_output]
  split <;> exact ⟨_, rfl⟩

/-- `apply_safety_checks` always sets `is_safe` to the negation of the final
`safety_corrected` flag. -/
theorem apply_is_safe_inverts (cfg : SafetyConfig) (oracle : ActionParams → Bool)
    (d : Decision) (ctx : EventCtx) :
    ∃ b, (apply_safety_checks cfg oracle d ctx).safety_corrected = some b ∧
      (apply_safety_checks cfg oracle d ctx).is_safe = some (!b) := by
  obtain ⟨b0, hb0⟩ := sanitize_output_corrected_isSome cfg oracle d
  simp only [apply_safety_checks]
  split_ifs <;> simp_all

/-- The confidence returned by `estimate_confidence` lies in `[0, 1]` for
every input (the nonempty case is clamped, the empty case returns 0). -/
theorem estimate_confidence_bounds (nstd : List ℚ → ℚ) (history : List (String × CompHist))
    (recs : List Recommendation) (c r : ℚ) (w : Option (List (String × ℚ))) :
    0 ≤ (estimate_confidence nstd history recs c r w).1 ∧
      (estimate_confidence nstd history recs c r w).1 ≤ 1 := by
  simp only [estimate_confidence]
  split
  · norm_num
  · exact ⟨le_max_left 0 _, max_le (by norm_num) (min_le_left 1 _)⟩

/-- C4: every decision produced (returned and archived) by `process_event`
carries a confidence in `[0, 1]` and satisfies
`is_safe == not safety_corrected`, for every gathered intelligence, routing
result, event, reliability ledger, standard-deviation function and
unsafe-pattern predicate. -/
theorem process_event_confidence_clamped_is_safe (nstd : List ℚ → ℚ)
    (oracle : ActionParams → Bool) (history : List (String × CompHist))
    (routing_target : Option String) (intel : Intel) (event : EventCtx) :
    (∃ c, (process_event nstd oracle history routing_target intel event).decision.confidence
        = some c ∧ 0 ≤ c ∧ c ≤ 1) ∧
    (∃ b, (process_event nstd oracle history routing_target intel event).decision.safety_corrected
        = some b ∧
      (process_event nstd oracle history routing_target intel event).decision.is_safe
        = some (!b)) := by
  obtain ⟨b, hb1, hb2⟩ := apply_is_safe_inverts defaultSafety oracle
    (choose_best_action intel event routing_target) event
  have hc := estimate_confidence_bounds nstd history
    (choose_best_action intel event routing_target).recommendations
    (assess_complexity event intel)
    ((choose_best_action intel event routing_target).risk_score.getD (1/2)) none
  exact ⟨⟨_, rfl, hc.1, hc.2⟩, b, hb1, hb2⟩

/-- C5: when the advisors yield zero recommendations, `process_event` still
produces a decision with action `"do_nothing"` and confidence `0.0`,
together with a recovery plan of exactly one (60-second monitor) step. -/
theorem process_event_empty_recommendations (nstd : List ℚ → ℚ)
    (oracle : ActionParams → Bool) (history : List (String × CompHist))
    (routing_target : Option String) (intel : Intel) (event : EventCtx)
    (h : collect_recommendations intel = []) :
    (process_event nstd oracle history routing_target intel event).decision.action
      = some "do_nothing" ∧
    (process_event nstd oracle history routing_target intel event).decision.confidence
      = some 0 ∧
    (process_event nstd oracle history routing_target intel event).recovery_plan.steps.length
      = 1 ∧
    (process_event nstd oracle history routing_target intel event).recovery_plan.estimated_duration
      = 60 := by
  have hd : choose_best_action intel event routing_target =
      { action := some "do_nothing", confidence := some 0,
        recommendations := [], risk_score := some (1/2) } := by
    simp only [choose_best_action, h]
  have hact := scale_action_preserved oracle
    { action := some "do_nothing", confidence := some 0,
      recommendations := [], risk_score := some (1/2) }
    event "do_nothing" rfl (by decide) (by decide)
  refine ⟨?_, ?_, ?_, ?_⟩
  · simp only [process_event, hd]
    exact hact
  · simp only [process_event, hd]
    simp [estimate_confidence]
  · simp only [process_event, hd, coordinate_recovery_plan]
    decide
  · simp only [process_event, hd, coordinate_recovery_plan]
    decide

/-- Witness for C5: no advisors at all (empty intelligence) yields zero
recommendations. -/
theorem process_event_empty_recommendations_witness :
    (process_event (fun _ => 0) (fun _ => false) [] none {} {}).decision.action
      = some "do_nothing" ∧
    (process_event (fun _ => 0) (fun _ => false) [] none {} {}).decision.confidence
      = some 0 ∧
    (process_event (fun _ => 0) (fun _ => false) [] none {} {}).recovery_plan.steps.length
      = 1 ∧
    (process_event (fun _ => 0) (fun _ => false) [] none {} {}).recovery_plan.estimated_duration
      = 60 :=
  process_event_empty_recommendations (fun _ => 0) (fun _ => false) [] none {} {} rfl

/-- C7 (amended): the recovery-plan builder is a pure function of the
decision's action realising the static table - `restart_pod`: 3 steps, 95s,
no rollback; `scale_up`: 3 steps, 185s, no rollback; `rebuild_deployment`:
4 steps, 390s, 120s rollback; every other action (including `scale_down`
and `do_nothing`): a single 60s monitor step - and every action yields
exactly one plan with at least one step whose total duration equals the sum
of the step durations. -/
theorem recovery_plan_table (d : Decision) :
    (∀ d' : Decision, d'.action = d.action →
      coordinate_recovery_plan d' = coordinate_recovery_plan d) ∧
    (d.action.getD "no_action" = "restart_pod" →
      coordinate_recovery_plan d =
        { steps := [⟨1, "identify_failed_pod", 5⟩, ⟨2, "restart_pod", 30⟩,
                    ⟨3, "verify_health", 60⟩],
          estimated_duration := 95, rollback_plan := none }) ∧
    (d.action.getD "no_action" = "scale_up" →
      coordinate_recovery_plan d =
        { steps := [⟨1, "calculate_target_replicas", 5⟩, ⟨2, "scale_deployment", 60⟩,
                    ⟨3, "verify_scaling", 120⟩],
          estimated_duration := 185, rollback_plan := none }) ∧
    (d.action.getD "no_action" = "rebuild_deployment" →
      coordinate_recovery_plan d =
        { steps := [⟨1, "backup_current_state", 30⟩, ⟨2, "rebuild_deployment", 180⟩,
                    ⟨3, "verify_deployment", 120⟩, ⟨4, "rollback_if_needed", 60⟩],
          estimated_duration := 390, rollback_plan := some ⟨"restore_backup", 120⟩ }) ∧
    (d.action.getD "no_action" ∉ ["restart_pod", "scale_up", "rebuild_deployment"] →
      coordinate_recovery_plan d =
        { steps := [⟨1, "monitor_situation", 60⟩],
          estimated_duration := 60, rollback_plan := none }) ∧
    (coordinate_recovery_plan d).steps ≠ [] ∧
    (coordinate_recovery_plan d).estimated_duration
      = ((coordinate_recovery_plan d).steps.map PlanStep.duration).sum := by
  refine ⟨?_, ?_, ?_, ?_, ?_, ?_, ?_⟩
  · intro d' hact
    simp only [coordinate_recovery_plan, hact]
  · intro hact
    simp [coordinate_recovery_plan, hact]
  · intro hact
    simp [coordinate_recovery_plan, hact]
  · intro hact
    simp [coordinate_recovery_plan, hact]
  · intro hact
    simp only [List.mem_cons, List.not_mem_nil, or_false, not_or] at hact
    simp [coordinate_recovery_plan, hact.1, hact.2.1, hact.2.2]
  · simp only [coordinate_recovery_plan]
    split_ifs <;> simp
  · simp only [coordinate_recovery_plan]
    split_ifs <;> decide

/-- Witness for C7: the table evaluated at `restart_pod` and `do_nothing`. -/
theorem recovery_plan_table_witness :
    coordinate_recovery_plan { action := some "restart_pod" } =
      { steps := [⟨1, "identify_failed_pod", 5⟩, ⟨2, "restart_pod", 30⟩,
                  ⟨3, "verify_health", 60⟩],
        estimated_duration := 95, rollback_plan := none } ∧
    coordinate_recovery_plan { action := some "do_nothing" } =
      { steps := [⟨1, "monitor_situation", 60⟩],
        estimated_duration := 60, rollback_plan := none } :=
  ⟨(recovery_plan_table { action := some "restart_pod" }).2.1 (by decide),
   (recovery_plan_table { action := some "do_nothing" }).2.2.2.2.1 (by decide)⟩

/-- Counterexample to C7 as stated: `scale_down` is *not* handled by the
3-step/185s scale branch - only `scale_up` is - so it falls into the default
single 60-second monitor step. -/
theorem scale_down_plan_cex :
    (coordinate_recovery_plan { action := some "scale_down" }).steps.length = 1 ∧
    (coordinate_recovery_plan { action := some "scale_down" }).estimated_duration = 60 ∧
    ¬ (coordinate_recovery_plan { action := some "scale_down" }).steps.length = 3 ∧
    ¬ (coordinate_recovery_plan { action := some "scale_down" }).estimated_duration = 185 := by
  decide

/-- Python `max` characterization: the list splits around the returned
element, everything before it is strictly smaller, everything after it is no
larger; in particular the first element attaining the maximum is returned. -/
theorem pyMaxBy_decomp {α : Type} (key : α → ℚ) (b : α) (xs : List α) :
    ∃ l₁ l₂, b :: xs = l₁ ++ (pyMaxBy key b xs) :: l₂ ∧
      (∀ y ∈ l₁, key y < key (pyMaxBy key b xs)) ∧
      (∀ y ∈ l₂, key y ≤ key (pyMaxBy key b xs)) := by
  induction xs generalizing b with
  | nil => exact ⟨[], [], rfl, by simp, by simp⟩
  | cons x xs ih =>
    by_cases hx : key b < key x
    · have hrw : pyMaxBy key b (x :: xs) = pyMaxBy key x xs := by
        simp [pyMaxBy, hx]
      obtain ⟨l₁, l₂, hsplit, h1, h2⟩ := ih x
      have hxle : key x ≤ key (pyMaxBy key x xs) := by
        cases l₁ with
        | nil =>
          rw [List.nil_append] at hsplit
          have hx2 : x = pyMaxBy key x xs := (List.cons.injEq .. ▸ hsplit).1
          rw [← hx2]
        | cons z l₁' =>
          have hz : x = z := (List.cons.injEq .. ▸ hsplit).1
          exact le_of_lt (hz ▸ h1 z (by simp))
      refine ⟨b :: l₁, l₂, ?_, ?_, fun y hy => hrw ▸ h2 y hy⟩
      · rw [hrw, List.cons_append, ← hsplit]
      · intro y hy
        rcases List.mem_cons.mp hy with rfl | hy'
        · rw [hrw]; exact lt_of_lt_of_le hx hxle
        · rw [hrw]; exact h1 y hy'
    · have hrw : pyMaxBy key b (x :: xs) = pyMaxBy key b xs := by
        simp [pyMaxBy, hx]
      have hxb : key x ≤ key b := not_lt.mp hx
      obtain ⟨l₁, l₂, hsplit, h1, h2⟩ := ih b
      cases l₁ with
      | nil =>
        rw [List.nil_append] at hsplit
        have hb : b = pyMaxBy key b xs := (List.cons.injEq .. ▸ hsplit).1
        have hxs : xs = l₂ := (List.cons.injEq .. ▸ hsplit).2
        refine ⟨[], x :: l₂, ?_, by simp, ?_⟩
        · rw [hrw, List.nil_append, ← hb, ← hxs]
        · intro y hy
          rcases List.mem_cons.mp hy with rfl | hy'
          · rw [hrw, ← hb]; exact hxb
          · rw [hrw]; exact h2 y hy'
      | cons z l₁' =>
        have hz : b = z := (List.cons.injEq .. ▸ hsplit).1
        have hxs : xs = l₁' ++ pyMaxBy key b xs :: l₂ :=
          (List.cons.injEq .. ▸ hsplit).2
        refine ⟨b :: x :: l₁', l₂, ?_, ?_, fun y hy => hrw ▸ h2 y hy⟩
        · rw [hrw, List.cons_append, List.cons_append, ← hxs]
        · intro y hy
          have hblt : key b < key (pyMaxBy key b xs) := by
            have := h1 z (by simp)
            rw [← hz] at this
            exact this
          rcases List.mem_cons.mp hy with rfl | hy'
          · rw [hrw]; exact hblt
          · rcases List.mem_cons.mp hy' with rfl | hy''
            · rw [hrw]; exact lt_of_le_of_lt hxb hblt
            · rw [hrw]; exact h1 y (by simp [hy''])

/-- C8 (amended): `_choose_best_action` selects the recommendation with
maximum confidence, and a tie is broken by the collection order
RL, LLM, GNN, Transformer-forecast (Python `max` keeps the first maximal
element), not by the advisor-priority order the claim states. -/
theorem choose_best_first_max (intel : Intel) (event : EventCtx)
    (routing_target : Option String) (r : Recommendation) (rest : List Recommendation)
    (h : collect_recommendations intel = r :: rest) :
    ∃ best l₁ l₂,
      collect_recommendations intel = l₁ ++ best :: l₂ ∧
      (∀ y ∈ l₁, y.confidence.getD 0 < best.confidence.getD 0) ∧
      (∀ y ∈ l₂, y.confidence.getD 0 ≤ best.confidence.getD 0) ∧
      (choose_best_action intel event routing_target).action
        = some (best.action.getD "no_action") ∧
      (choose_best_action intel event routing_target).confidence
        = some (best.confidence.getD (1/2)) := by
  obtain ⟨l₁, l₂, hsplit, h1, h2⟩ :=
    pyMaxBy_decomp (fun x => x.confidence.getD 0) r rest
  refine ⟨pyMaxBy (fun x => x.confidence.getD 0) r rest, l₁, l₂, ?_, h1, h2, ?_, ?_⟩
  · rw [h]; exact hsplit
  · simp only [choose_best_action, h]
  · simp only [choose_best_action, h]

/-- Witness for C8: a single RL recommendation is selected. -/
theorem choose_best_first_max_witness :
    ∃ best l₁ l₂,
      collect_recommendations { rl := some ("restart_pod", 4/5) }
        = l₁ ++ best :: l₂ ∧
      (∀ y ∈ l₁, y.confidence.getD 0 < best.confidence.getD 0) ∧
      (∀ y ∈ l₂, y.confidence.getD 0 ≤ best.confidence.getD 0) ∧
      (choose_best_action { rl := some ("restart_pod", 4/5) } {} none).action
        = some (best.action.getD "no_action") ∧
      (choose_best_action { rl := some ("restart_pod", 4/5) } {} none).confidence
        = some (best.confidence.getD (1/2)) :=
  choose_best_first_max { rl := some ("restart_pod", 4/5) } {} none
    { action := some "restart_pod", confidence := some (4/5), source := some "rl_agent" }
    [] rfl

/-- Counterexample to C8 as stated: RL and GNN recommendations tie at
confidence 0.8; the claim's priority order (GNN first) demands
`trigger_heal`, but the code returns the RL action `restart_pod` because RL
is collected first. -/
theorem tie_break_goes_to_first_collected_cex :
    collect_recommendations
        { rl := some ("restart_pod", 4/5), gnn := some [("svc-a", 4/5)] }
      = [{ action := some "restart_pod", confidence := some (4/5), source := some "rl_agent" },
         { action := some "trigger_heal", confidence := some (4/5), source := some "gnn" }] ∧
    (choose_best_action
        { rl := some ("restart_pod", 4/5), gnn := some [("svc-a", 4/5)] } {} none).action
      = some "restart_pod" ∧
    ¬ (choose_best_action
        { rl := some ("restart_pod", 4/5), gnn := some [("svc-a", 4/5)] } {} none).action
      = some "trigger_heal" := by
  refine ⟨rfl, ?_, ?_⟩
  · norm_num [choose_best_action, collect_recommendations, pyMaxBy]
  · norm_num [choose_best_action, collect_recommendations, pyMaxBy]
    decide

/-- C9 (amended): for every nonempty recommendation list the
`historical_accuracy` factor reported by `estimate_confidence` equals the
mean of `successes/count` over the recommendation sources present in the
reliability ledger with positive count, and defaults to 0.5 only when no
source has history (unseen sources are skipped, they do not contribute
0.5 to the mean). -/
theorem estimate_confidence_historical_factor (nstd : List ℚ → ℚ)
    (history : List (String × CompHist)) (recs : List Recommendation)
    (comp risk : ℚ) (w : Option (List (String × ℚ)))
    (h : recs ≠ []) :
    ((estimate_confidence nstd history recs comp risk w).2.map
        ConfDetails.historical_accuracy) =
      some (if contrib_accuracies history recs = [] then 1/2
        else (contrib_accuracies history recs).sum
          / ((contrib_accuracies history recs).length : ℚ)) := by
  have hfn : (fun r : Recommendation =>
      match history.lookup (r.source.getD "unknown") with
      | some hh => if hh.count > 0 then some ((hh.successes : ℚ) / (hh.count : ℚ)) else none
      | none => none) = (fun r : Recommendation =>
      (history.lookup (r.source.getD "unknown")).bind
        (fun hh => if 0 < hh.count then some ((hh.successes : ℚ) / (hh.count : ℚ)) else none)) := by
    funext r
    cases history.lookup (r.source.getD "unknown") <;> rfl
  have hne : recs.isEmpty = false := by
    cases recs
    · exact absurd rfl h
    · rfl
  simp only [estimate_confidence, hne, Bool.false_eq_true, if_false, Option.map_some]
  simp only [get_historical_accuracy, hne, Bool.false_eq_true, if_false, hfn,
    contrib_accuracies, listMean, List.isEmpty_iff, Option.map_some']

/-- Witness for C9: one recommendation from a ledger-known source. -/
theorem estimate_confidence_historical_factor_witness :
    ((estimate_confidence (fun _ => 0) [("rl_agent", ⟨3, 1, 4, 0⟩)]
        [{ action := some "restart_pod", confidence := some (4/5), source := some "rl_agent" }]
        (1/2) (1/2) none).2.map ConfDetails.historical_accuracy) =
      some (if contrib_accuracies [("rl_agent", ⟨3, 1, 4, 0⟩)]
          [{ action := some "restart_pod", confidence := some (4/5), source := some "rl_agent" }] = []
        then 1/2
        else (contrib_accuracies [("rl_agent", ⟨3, 1, 4, 0⟩)]
            [{ action := some "restart_pod", confidence := some (4/5), source := some "rl_agent" }]).sum
          / ((contrib_accuracies [("rl_agent", ⟨3, 1, 4, 0⟩)]
            [{ action := some "restart_pod", confidence := some (4/5), source := some "rl_agent" }]).length : ℚ)) :=
  estimate_confidence_historical_factor (fun _ => 0) [("rl_agent", ⟨3, 1, 4, 0⟩)]
    [{ action := some "restart_pod", confidence := some (4/5), source := some "rl_agent" }]
    (1/2) (1/2) none (by simp)

/-- Counterexample to C9 as stated: with sources `gnn` (0 successes out of
1) and `rl_agent` (unseen), the claim's formula gives `mean(0, 0.5) = 1/4`,
but the code skips the unseen source and returns `mean(0) = 0`. -/
theorem historical_accuracy_unseen_cex :
    get_historical_accuracy [("gnn", ⟨0, 1, 1, 0⟩)]
      [{ action := some "trigger_heal", confidence := some (4/5), source := some "gnn" },
       { action := some "restart_pod", confidence := some (4/5), source := some "rl_agent" }] = 0 ∧
    claim_historical_accuracy [("gnn", ⟨0, 1, 1, 0⟩)]
      [{ action := some "trigger_heal", confidence := some (4/5), source := some "gnn" },
       { action := some "restart_pod", confidence := some (4/5), source := some "rl_agent" }] = 1/4 ∧
    ((estimate_confidence (fun _ => 0) [("gnn", ⟨0, 1, 1, 0⟩)]
        [{ action := some "trigger_heal", confidence := some (4/5), source := some "gnn" },
         { action := some "restart_pod", confidence := some (4/5), source := some "rl_agent" }]
        (1/2) (1/2) none).2.map ConfDetails.historical_accuracy) = some 0 ∧
    ¬ (0 : ℚ) = 1/4 := by
  refine ⟨?_, ?_, ?_, by norm_num⟩ <;>
    · simp +decide [get_historical_accuracy, claim_historical_accuracy, estimate_confidence,
        listMean, List.lookup]
      try norm_num

/-- Mapping an update over the entry at key `k` leaves membership of pairs
with a different key untouched. -/
theorem mem_mapUpdate_iff {β : Type} (f : β → β) (k : String)
    (l : List (String × β)) (p : String × β) (hp : p.1 ≠ k) :
    p ∈ l.map (fun q => if q.1 == k then (q.1, f q.2) else q) ↔ p ∈ l := by
  induction l with
  | nil => simp
  | cons q l ih =>
    simp only [List.map_cons, List.mem_cons]
    by_cases hq : q.1 = k
    · have h1 : p ≠ (q.1, f q.2) := fun he => hp (by rw [he, hq])
      have h2 : p ≠ q := fun he => hp (by rw [he, hq])
      rw [if_pos (beq_iff_eq.mpr hq)]
      constructor
      · rintro (rfl | h)
        · exact absurd rfl h1
        · exact Or.inr (ih.mp h)
      · rintro (rfl | h)
        · exact absurd rfl h2
        · exact Or.inr (ih.mpr h)
    · rw [if_neg (by simp [hq])]
      constructor
      · rintro (rfl | h)
        · exact Or.inl rfl
        · exact Or.inr (ih.mp h)
      · rintro (rfl | h)
        · exact Or.inl rfl
        · exact Or.inr (ih.mpr h)

/-- Looking up `k` after mapping an update over the entry at `k`. -/
theorem lookup_mapUpdate {β : Type} (f : β → β) (k : String)
    (l : List (String × β)) :
    (l.map (fun q => if q.1 == k then (q.1, f q.2) else q)).lookup k
      = (l.lookup k).map f := by
  induction l with
  | nil => rfl
  | cons q l ih =>
    by_cases hq : q.1 = k
    · have hbq : (q.1 == k) = true := beq_iff_eq.mpr hq
      have hkq : (k == q.1) = true := beq_iff_eq.mpr hq.symm
      rw [List.map_cons, if_pos hbq]
      simp [List.lookup, hkq]
    · have hbq : (q.1 == k) = false := by
        rw [beq_eq_false_iff_ne]
        exact hq
      have hkq : (k == q.1) = false := by
        rw [beq_eq_false_iff_ne]
        exact fun h => hq h.symm
      rw [List.map_cons, if_neg (by simp [hbq])]
      simp only [List.lookup, hkq]
      exact ih

/-- A successful lookup yields a member of the association list. -/
theorem lookup_some_mem {β : Type} (k : String) (v : β) (l : List (String × β))
    (h : l.lookup k = some v) : (k, v) ∈ l := by
  induction l with
  | nil => cases h
  | cons q l ih =>
    rcases q with ⟨a, b⟩
    cases hka : (k == a)
    · simp only [List.lookup, hka] at h
      exact List.mem_cons_of_mem _ (ih h)
    · simp only [List.lookup, hka] at h
      injection h with h2
      rw [beq_iff_eq.mp hka, ← h2]
      exact List.mem_cons_self _ _

/-- C10: `update_decision_outcome` with an unarchived id returns normally
and leaves the memory completely unchanged; with an archived id it changes
only the `outcome` and `success` fields of that one archive entry - every
entry under a different key, the pattern store, the archive bound, the
embedding index and the short-term memory are untouched. -/
theorem update_decision_outcome_frame (mem : MetaAgentMemory) (decision_id : String)
    (outcome : List (String × String)) (success : Bool) :
    ((mem.decision_archive.archives.any (fun p => p.1 == decision_id)) = false →
      update_decision_outcome mem decision_id outcome success = mem) ∧
    (update_decision_outcome mem decision_id outcome success).short_term
      = mem.short_term ∧
    (update_decision_outcome mem decision_id outcome success).long_term_embeddings
      = mem.long_term_embeddings ∧
    (update_decision_outcome mem decision_id outcome success).decision_archive.max_size
      = mem.decision_archive.max_size ∧
    (update_decision_outcome mem decision_id outcome success).decision_archive.patterns
      = mem.decision_archive.patterns ∧
    (∀ p : String × ArchiveEntry, p.1 ≠ decision_id →
      (p ∈ (update_decision_outcome mem decision_id outcome success).decision_archive.archives
        ↔ p ∈ mem.decision_archive.archives)) ∧
    (∀ e, mem.decision_archive.archives.lookup decision_id = some e →
      (update_decision_outcome mem decision_id outcome success).decision_archive.archives.lookup
          decision_id
        = some { e with outcome := some outcome, success := some success }) := by
  refine ⟨?_, ?_, ?_, ?_, ?_, ?_, ?_⟩
  · intro h
    simp only [update_decision_outcome, h, Bool.false_eq_true, if_false]
  · simp only [update_decision_outcome]
    split <;> rfl
  · simp only [update_decision_outcome]
    split <;> rfl
  · simp only [update_decision_outcome]
    split <;> rfl
  · simp only [update_decision_outcome]
    split <;> rfl
  · intro p hp
    simp only [update_decision_outcome]
    split
    · exact mem_mapUpdate_iff
        (fun e => { e with outcome := some outcome, success := some success })
        decision_id mem.decision_archive.archives p hp
    · exact Iff.rfl
  · intro e he
    simp only [update_decision_outcome]
    split
    · rw [lookup_mapUpdate
        (fun e => { e with outcome := some outcome, success := some success })
        decision_id mem.decision_archive.archives, he]
      rfl
    · rename_i hfalse
      exfalso
      have : mem.decision_archive.archives.lookup decision_id ≠ none := by
        rw [he]
        exact Option.some_ne_none e
      rcases hlk : mem.decision_archive.archives.lookup decision_id with _ | v
      · exact this hlk
      · have hmem := lookup_some_mem decision_id v mem.decision_archive.archives hlk
        exact hfalse (List.any_eq_true.mpr ⟨(decision_id, v), hmem, by simp⟩)

/-- Witness for C10: a one-entry archive, updated under its id and under a
missing id. -/
theorem update_decision_outcome_frame_witness :
    (update_decision_outcome
      { short_term := ⟨100, 50, [], [], []⟩,
        long_term_embeddings := ⟨128, [], [], []⟩,
        decision_archive :=
          ⟨100000, [("d1", { decision_id := "d1", timestamp := 1,
                             decision := {}, context := {} })], []⟩ }
      "d1" [("status", "ok")] true).decision_archive.archives.lookup "d1"
      = some { decision_id := "d1", timestamp := 1, decision := {}, context := {},
               outcome := some [("status", "ok")], success := some true } ∧
    update_decision_outcome
      { short_term := ⟨100, 50, [], [], []⟩,
        long_term_embeddings := ⟨128, [], [], []⟩,
        decision_archive :=
          ⟨100000, [("d1", { decision_id := "d1", timestamp := 1,
                             decision := {}, context := {} })], []⟩ }
      "missing" [("status", "ok")] true
      = { short_term := ⟨100, 50, [], [], []⟩,
          long_term_embeddings := ⟨128, [], [], []⟩,
          decision_archive :=
            ⟨100000, [("d1", { decision_id := "d1", timestamp := 1,
                               decision := {}, context := {} })], []⟩ } :=
  ⟨(update_decision_outcome_frame
      { short_term := ⟨100, 50, [], [], []⟩,
        long_term_embeddings := ⟨128, [], [], []⟩,
        decision_archive :=
          ⟨100000, [("d1", { decision_id := "d1", timestamp := 1,
                             decision := {}, context := {} })], []⟩ }
      "d1" [("status", "ok")] true).2.2.2.2.2.2
      { decision_id := "d1", timestamp := 1, decision := {}, context := {} } rfl,
   (update_decision_outcome_frame
      { short_term := ⟨100, 50, [], [], []⟩,
        long_term_embeddings := ⟨128, [], [], []⟩,
        decision_archive :=
          ⟨100000, [("d1", { decision_id := "d1", timestamp := 1,
                             decision := {}, context := {} })], []⟩ }
      "missing" [("status", "ok")] true).1 (by decide)⟩

/-- Inserting a fresh key appends. -/
theorem dictInsert_fresh {β : Type} (k : String) (v : β) (l : List (String × β))
    (h : l.any (fun p => p.1 == k) = false) :
    dictInsert k v l = l ++ [(k, v)] := by
  simp only [dictInsert, h, Bool.false_eq_true, if_false]

/-- Length of a dict insert: unchanged on replace, one more on append. -/
theorem dictInsert_length {β : Type} (k : String) (v : β) (l : List (String × β)) :
    (dictInsert k v l).length
      = if l.any (fun p => p.1 == k) then l.length else l.length + 1 := by
  simp only [dictInsert]
  split <;> simp

/-- Deleting a present key removes exactly one entry. -/
theorem eraseKey_length_of_any {β : Type} (k : String) (l : List (String × β))
    (h : l.any (fun p => p.1 == k) = true) :
    (eraseKey k l).length + 1 = l.length := by
  induction l with
  | nil => cases h
  | cons p rest ih =>
    cases hpk : (p.1 == k)
    · simp only [List.any_cons, hpk, Bool.false_or] at h
      simp only [eraseKey, hpk, Bool.false_eq_true, if_false, List.length_cons]
      rw [← ih h]
    · simp only [eraseKey, hpk, if_true, List.length_cons]

/-- Deleting the key of the head drops the head. -/
theorem eraseKey_cons_self {β : Type} (p : String × β) (rest : List (String × β)) :
    eraseKey p.1 (p :: rest) = rest := by
  simp [eraseKey]

/-- One eviction round on an archive map exactly one over the bound removes
exactly one entry. -/
theorem evict_once_length (m : List (String × ArchiveEntry)) (mx : ℕ)
    (hml : m.length = mx + 1) :
    ((((List.insertionSort
        (fun p q : String × ArchiveEntry => p.2.timestamp ≤ q.2.timestamp) m).take
          (m.length - mx)).map Prod.fst).foldl
        (fun acc k => eraseKey k acc) m).length = mx := by
  have hslen : (List.insertionSort
      (fun p q : String × ArchiveEntry => p.2.timestamp ≤ q.2.timestamp) m).length
        = mx + 1 := by
    rw [List.length_insertionSort, hml]
  have htake : m.length - mx = 1 := by omega
  rw [htake]
  cases hs : List.insertionSort
      (fun p q : String × ArchiveEntry => p.2.timestamp ≤ q.2.timestamp) m with
  | nil => rw [hs] at hslen; cases hslen
  | cons shead srest =>
    have hred : ((((shead :: srest).take 1).map Prod.fst).foldl
        (fun acc k => eraseKey k acc) m) = eraseKey shead.1 m := rfl
    rw [hred]
    have hsmem : shead ∈ m := by
      have hin : shead ∈ List.insertionSort
          (fun p q : String × ArchiveEntry => p.2.timestamp ≤ q.2.timestamp) m := by
        rw [hs]
        exact List.mem_cons_self _ _
      exact (List.perm_insertionSort
        (fun p q : String × ArchiveEntry => p.2.timestamp ≤ q.2.timestamp) m).subset hin
    have hany : m.any (fun p => p.1 == shead.1) = true :=
      List.any_eq_true.mpr ⟨shead, hsmem, by simp⟩
    have := eraseKey_length_of_any shead.1 m hany
    omega

/-- `archive_decision` preserves the archive bound: from at most `max_size`
entries, the archive still holds at most `max_size` entries afterwards. -/
theorem archive_decision_bounded (a : DecisionArchive) (now : ℕ) (id : String)
    (dec : Decision) (ctx : EventCtx) (o : Option (List (String × String)))
    (s : Option Bool) (hlen : a.archives.length ≤ a.max_size) :
    (archive_decision a now id dec ctx o s).archives.length ≤ a.max_size := by
  have hm : (dictInsert id
      ({ decision_id := id, timestamp := now, decision := dec,
         context := ctx, outcome := o, success := s } : ArchiveEntry)
      a.archives).length ≤ a.archives.length + 1 := by
    rw [dictInsert_length]
    split <;> omega
  simp only [archive_decision]
  generalize hgen : dictInsert id
      ({ decision_id := id, timestamp := now, decision := dec,
         context := ctx, outcome := o, success := s } : ArchiveEntry)
      a.archives = m at hm ⊢
  split
  · rename_i hgt
    rw [evict_once_length m a.max_size (by omega)]
  · rename_i hle
    omega

/-- Inserting a fresh id with a timestamp newer than every archived entry
appends the entry and then drops the oldest entry exactly when the bound
would be exceeded. -/
theorem archive_decision_fresh_step (a : DecisionArchive) (i : ArchiveInsert)
    (hfresh : ∀ p ∈ a.archives, p.1 ≠ i.decision_id)
    (hsorted : a.archives.Pairwise
      (fun p q : String × ArchiveEntry => p.2.timestamp < q.2.timestamp))
    (hts : ∀ p ∈ a.archives, p.2.timestamp < i.timestamp)
    (hlen : a.archives.length ≤ a.max_size) :
    (archive_decision a i.timestamp i.decision_id i.decision i.context
        none none).archives
      = (a.archives ++ [(i.decision_id, insertEntry i)]).drop
          ((a.archives.length + 1) - a.max_size) := by
  have hanyf : a.archives.any (fun p => p.1 == i.decision_id) = false := by
    by_contra h
    rw [Bool.not_eq_false, List.any_eq_true] at h
    obtain ⟨p, hp, hb⟩ := h
    exact hfresh p hp (by simpa using hb)
  have hdict : dictInsert i.decision_id
      ({ decision_id := i.decision_id, timestamp := i.timestamp,
         decision := i.decision, context := i.context,
         outcome := none, success := none } : ArchiveEntry) a.archives
      = a.archives ++ [(i.decision_id, insertEntry i)] := by
    rw [dictInsert_fresh _ _ _ hanyf]
    rfl
  simp only [archive_decision, hdict]
  split
  · rename_i hgt
    have hlc : (a.archives ++ [(i.decision_id, insertEntry i)]).length
        = a.archives.length + 1 := by simp
    rw [hlc] at hgt
    have hnmax : a.archives.length = a.max_size := by omega
    have hsorted2 : (a.archives ++ [(i.decision_id, insertEntry i)]).Pairwise
        (fun p q : String × ArchiveEntry => p.2.timestamp ≤ q.2.timestamp) := by
      rw [List.pairwise_append]
      refine ⟨hsorted.imp (fun h => le_of_lt h), List.pairwise_singleton _ _, ?_⟩
      intro p hp q hq
      simp only [List.mem_singleton] at hq
      subst hq
      exact le_of_lt (hts p hp)
    rw [List.Sorted.insertionSort_eq hsorted2]
    have htk : (a.archives ++ [(i.decision_id, insertEntry i)]).length - a.max_size
        = 1 := by
      rw [hlc]
      omega
    have hdk : a.archives.length + 1 - a.max_size = 1 := by omega
    rw [htk, hdk]
    cases harch : a.archives with
    | nil => simp [eraseKey]
    | cons p rest =>
      rw [List.cons_append]
      have hr1 : (((p :: (rest ++ [(i.decision_id, insertEntry i)])).take 1).map
          Prod.fst).foldl (fun acc k => eraseKey k acc)
          (p :: (rest ++ [(i.decision_id, insertEntry i)]))
          = eraseKey p.1 (p :: (rest ++ [(i.decision_id, insertEntry i)])) := rfl
      rw [hr1, eraseKey_cons_self]
      rfl
  · rename_i hle
    have hlc : (a.archives ++ [(i.decision_id, insertEntry i)]).length
        = a.archives.length + 1 := by simp
    rw [hlc] at hle
    have : a.archives.length + 1 - a.max_size = 0 := by omega
    rw [this, List.drop_zero]

/-- Folding timestamp-increasing, fresh-id insertions over an archive keeps
exactly the most recent entries: the result is the concatenated insertion
list with the oldest entries dropped down to `max_size`. -/
theorem archiveFold_drop (ins : List ArchiveInsert) :
    ∀ a : DecisionArchive,
    a.archives.Pairwise
      (fun p q : String × ArchiveEntry => p.2.timestamp < q.2.timestamp) →
    a.archives.length ≤ a.max_size →
    (∀ p ∈ a.archives, ∀ i ∈ ins, p.2.timestamp < i.timestamp) →
    (∀ i ∈ ins, ∀ p ∈ a.archives, p.1 ≠ i.decision_id) →
    (ins.map ArchiveInsert.decision_id).Nodup →
    (ins.map ArchiveInsert.timestamp).Pairwise (· < ·) →
    (archiveFold a ins).archives
      = (a.archives ++ ins.map (fun i => (i.decision_id, insertEntry i))).drop
          ((a.archives.length + ins.length) - a.max_size) ∧
    (archiveFold a ins).max_size = a.max_size := by
  induction ins with
  | nil =>
    intro a h1 h2 h3 h4 h5 h6
    constructor
    · have hz : a.archives.length + 0 - a.max_size = 0 := by omega
      simp only [archiveFold, List.foldl_nil, List.map_nil, List.append_nil,
        List.length_nil, hz, List.drop_zero]
    · rfl
  | cons i ins ih =>
    intro a h1 h2 h3 h4 h5 h6
    have hstep := archive_decision_fresh_step a i
      (fun p hp => h4 i (List.mem_cons_self _ _) p hp)
      h1 (fun p hp => h3 p hp i (List.mem_cons_self _ _)) h2
    have hmax1 : (archive_decision a i.timestamp i.decision_id i.decision
        i.context none none).max_size = a.max_size := rfl
    have hLpair : (a.archives ++ [(i.decision_id, insertEntry i)]).Pairwise
        (fun p q : String × ArchiveEntry => p.2.timestamp < q.2.timestamp) := by
      rw [List.pairwise_append]
      refine ⟨h1, List.pairwise_singleton _ _, ?_⟩
      intro p hp q hq
      simp only [List.mem_singleton] at hq
      subst hq
      exact h3 p hp i (List.mem_cons_self _ _)
    have hsubl : (archive_decision a i.timestamp i.decision_id i.decision
        i.context none none).archives.Sublist
          (a.archives ++ [(i.decision_id, insertEntry i)]) := by
      rw [hstep]
      exact List.drop_sublist _ _
    have h1' := hLpair.sublist hsubl
    have hlen1 : (archive_decision a i.timestamp i.decision_id i.decision
        i.context none none).archives.length
        = (a.archives.length + 1) - ((a.archives.length + 1) - a.max_size) := by
      rw [hstep, List.length_drop]
      simp
    have h2' : (archive_decision a i.timestamp i.decision_id i.decision
        i.context none none).archives.length
        ≤ (archive_decision a i.timestamp i.decision_id i.decision
            i.context none none).max_size := by
      rw [hlen1, hmax1]
      omega
    have hmemL : ∀ p ∈ (archive_decision a i.timestamp i.decision_id i.decision
        i.context none none).archives,
        p ∈ a.archives ∨ p = (i.decision_id, insertEntry i) := by
      intro p hp
      have := hsubl.subset hp
      rcases List.mem_append.mp this with h | h
      · exact Or.inl h
      · exact Or.inr (List.mem_singleton.mp h)
    have h6x : (∀ t ∈ ins.map ArchiveInsert.timestamp, i.timestamp < t) ∧
        (ins.map ArchiveInsert.timestamp).Pairwise (· < ·) := by
      have hh := h6
      simp only [List.map_cons, List.pairwise_cons] at hh
      exact hh
    have hits : ∀ j ∈ ins, i.timestamp < j.timestamp := by
      intro j hj
      exact h6x.1 j.timestamp (List.mem_map_of_mem _ hj)
    have h3' : ∀ p ∈ (archive_decision a i.timestamp i.decision_id i.decision
        i.context none none).archives, ∀ j ∈ ins, p.2.timestamp < j.timestamp := by
      intro p hp j hj
      rcases hmemL p hp with h | h
      · exact h3 p h j (List.mem_cons_of_mem _ hj)
      · rw [h]
        exact hits j hj
    have h5x : i.decision_id ∉ ins.map ArchiveInsert.decision_id ∧
        (ins.map ArchiveInsert.decision_id).Nodup := by
      have hh := h5
      simp only [List.map_cons, List.nodup_cons] at hh
      exact hh
    have hidni : i.decision_id ∉ ins.map ArchiveInsert.decision_id := h5x.1
    have h4' : ∀ j ∈ ins, ∀ p ∈ (archive_decision a i.timestamp i.decision_id
        i.decision i.context none none).archives, p.1 ≠ j.decision_id := by
      intro j hj p hp
      rcases hmemL p hp with h | h
      · exact h4 j (List.mem_cons_of_mem _ hj) p h
      · rw [h]
        intro he
        have he2 : i.decision_id = j.decision_id := he
        refine hidni ?_
        rw [he2]
        exact List.mem_map_of_mem _ hj
    have h5' : (ins.map ArchiveInsert.decision_id).Nodup := h5x.2
    have h6' : (ins.map ArchiveInsert.timestamp).Pairwise (· < ·) := h6x.2
    obtain ⟨hrec, hmaxr⟩ := ih (archive_decision a i.timestamp i.decision_id
      i.decision i.context none none) h1' h2' h3' h4' h5' h6'
    constructor
    · show (archiveFold (archive_decision a i.timestamp i.decision_id
        i.decision i.context none none) ins).archives = _
      rw [hrec, hmax1, hlen1, hstep]
      rw [← List.drop_append_of_le_length
        (by simp only [List.length_append, List.length_singleton]; omega)]
      rw [List.drop_drop]
      have hL : (a.archives ++ [(i.decision_id, insertEntry i)])
          ++ ins.map (fun j => (j.decision_id, insertEntry j))
          = a.archives ++ (i :: ins).map (fun j => (j.decision_id, insertEntry j)) := by
        simp
      rw [hL]
      congr 1
      simp only [List.length_cons]
      omega
    · show (archiveFold (archive_decision a i.timestamp i.decision_id
        i.decision i.context none none) ins).max_size = _
      rw [hmaxr, hmax1]

/-- C6: after every archive insert the archive holds at most `max_size`
entries; and inserting `max_size + k` entries with distinct ids and
increasing (wall-clock) timestamps into an empty archive leaves exactly the
`max_size` most recent entries - the insertion sequence with its `k` oldest
entries evicted - so the archive length is `min (max_size + k) max_size`. -/
theorem archive_bounded_and_evicts_oldest :
    (∀ (a : DecisionArchive) (now : ℕ) (id : String) (dec : Decision)
       (ctx : EventCtx) (o : Option (List (String × String))) (s : Option Bool),
       a.archives.length ≤ a.max_size →
       (archive_decision a now id dec ctx o s).archives.length ≤ a.max_size) ∧
    (∀ (mx : ℕ) (ins : List ArchiveInsert),
       (ins.map ArchiveInsert.decision_id).Nodup →
       (ins.map ArchiveInsert.timestamp).Pairwise (· < ·) →
       (archiveFold ⟨mx, [], []⟩ ins).archives
         = (ins.map (fun i => (i.decision_id, insertEntry i))).drop (ins.length - mx) ∧
       (archiveFold ⟨mx, [], []⟩ ins).archives.length = min ins.length mx) := by
  constructor
  · intro a now id dec ctx o s hlen
    exact archive_decision_bounded a now id dec ctx o s hlen
  · intro mx ins h5 h6
    obtain ⟨h, _⟩ := archiveFold_drop ins ⟨mx, [], []⟩ (by simp) (by simp)
      (by simp) (by simp) h5 h6
    have h2 : (archiveFold ⟨mx, [], []⟩ ins).archives
        = (ins.map (fun i => (i.decision_id, insertEntry i))).drop (ins.length - mx) := by
      simpa using h
    refine ⟨h2, ?_⟩
    rw [h2, List.length_drop, List.length_map]
    omega

/-- Witness for C6: three inserts against `max_size = 2` keep the two
newest; a full archive of two entries stays at two after another insert. -/
theorem archive_bounded_and_evicts_oldest_witness :
    (archiveFold ⟨2, [], []⟩
        [⟨"a", 1, {}, {}⟩, ⟨"b", 2, {}, {}⟩, ⟨"c", 3, {}, {}⟩]).archives
      = ([⟨"a", 1, {}, {}⟩, ⟨"b", 2, {}, {}⟩,
          (⟨"c", 3, {}, {}⟩ : ArchiveInsert)].map
            (fun i => (i.decision_id, insertEntry i))).drop 1 ∧
    (archiveFold ⟨2, [], []⟩
        [⟨"a", 1, {}, {}⟩, ⟨"b", 2, {}, {}⟩, ⟨"c", 3, {}, {}⟩]).archives.length
      = min 3 2 ∧
    (archive_decision
        ⟨2, [("x", ⟨"x", 7, {}, {}, none, none⟩),
             ("y", ⟨"y", 8, {}, {}, none, none⟩)], []⟩
        9 "z" {} {} none none).archives.length ≤ 2 :=
  ⟨(archive_bounded_and_evicts_oldest.2 2
      [⟨"a", 1, {}, {}⟩, ⟨"b", 2, {}, {}⟩, ⟨"c", 3, {}, {}⟩]
      (by decide) (by decide)).1,
   (archive_bounded_and_evicts_oldest.2 2
      [⟨"a", 1, {}, {}⟩, ⟨"b", 2, {}, {}⟩, ⟨"c", 3, {}, {}⟩]
      (by decide) (by decide)).2,
   archive_bounded_and_evicts_oldest.1
     ⟨2, [("x", ⟨"x", 7, {}, {}, none, none⟩),
          ("y", ⟨"y", 8, {}, {}, none, none⟩)], []⟩
     9 "z" {} {} none none (by decide)⟩
